import Mathlib

/-!
Verification of the dagster repository slice: the Airflow DAG factory
(`dagster_airflow/factory.py`), the mode/resource resolver and
environment-type builder (exercised by
`dagster_tests/core_tests/test_mode_definitions.py`), and the event log
storage engine (exercised by
`dagster_tests/core_tests/storage_tests/test_event_log.py`).

Components whose implementation is not in the corpus (only their tests are)
are modelled from the specification; each such definition carries a doc
comment starting `Modelled from the spec:`.
-/

namespace Dagster

/-! ## Airflow factory: `_rename_for_airflow` (factory.py, lines 26-44) -/

/-- Airflow DAG names are not allowed to be longer than 250 chars
(factory.py line 27). -/
def AIRFLOW_MAX_DAG_NAME_LEN : Nat := 250

/-- A character matched by the pattern `[\w\-\.]` of factory.py line 44.
`\w` is modelled with its ASCII semantics `[A-Za-z0-9_]`, which is the
behaviour of `re` on the byte strings of this Python-2-compatible codebase. -/
def isAirflowNameChar (c : Char) : Bool :=
  c.isAlphanum || c = '_' || c = '-' || c = '.'

/-- The per-character action of `re.sub(r'[^\w\-\.]', '_', name)`: a
character matching `[\w\-\.]` is kept, any other is replaced by `_`. -/
def airflowSubstChar (c : Char) : Char :=
  if isAirflowNameChar c then c else '_'

/-- Embedding of `_rename_for_airflow` (factory.py lines 37-44):
`re.sub(r'[^\w\-\.]', '_', name)[:AIRFLOW_MAX_DAG_NAME_LEN]` — substitute
`_` for every character not matching `[\w\-\.]`, then truncate to the first
250 characters. -/
def renameForAirflow (name : String) : String :=
  String.mk ((name.data.map airflowSubstChar).take AIRFLOW_MAX_DAG_NAME_LEN)

/-- The character class `[A-Za-z0-9_.-]`, written as the spec words it:
the letter ranges, the digit range, underscore, dot and hyphen. -/
def specAllowedChar (c : Char) : Bool :=
  ('A' ≤ c && c ≤ 'Z') || ('a' ≤ c && c ≤ 'z') || ('0' ≤ c && c ≤ '9')
    || c = '_' || c = '.' || c = '-'

/-- The sanitization exactly as the spec states it: replace every character
outside `[A-Za-z0-9_.-]` by `_`, then truncate to at most 250 characters. -/
def specSanitize (name : String) : String :=
  String.mk ((name.data.map (fun c => if specAllowedChar c then c else '_')).take 250)

theorem isAirflowNameChar_eq_specAllowedChar :
    isAirflowNameChar = specAllowedChar := by
  funext c
  show (c.isAlphanum || c = '_' || c = '-' || c = '.') =
    ((decide (65 ≤ c.val) && decide (c.val ≤ 90)) ||
      (decide (97 ≤ c.val) && decide (c.val ≤ 122)) ||
      (decide (48 ≤ c.val) && decide (c.val ≤ 57)) || c = '_' || c = '.' || c = '-')
  simp [Char.isAlphanum, Char.isAlpha, Char.isDigit, Char.isUpper, Char.isLower]
  rw [Bool.eq_iff_iff]
  simp only [Bool.or_eq_true, Bool.and_eq_true, decide_eq_true_eq]
  tauto

theorem specAllowedChar_underscore : specAllowedChar '_' = true := by decide

theorem isAirflowNameChar_airflowSubstChar (c : Char) :
    isAirflowNameChar (airflowSubstChar c) = true := by
  by_cases h : isAirflowNameChar c = true
  · simp [airflowSubstChar, h]
  · simp only [airflowSubstChar, h, if_neg, Bool.false_eq_true, not_false_iff]
    rw [isAirflowNameChar_eq_specAllowedChar]
    exact specAllowedChar_underscore

theorem airflowSubstChar_idem (c : Char) :
    airflowSubstChar (airflowSubstChar c) = airflowSubstChar c := by
  have h := isAirflowNameChar_airflowSubstChar c
  generalize airflowSubstChar c = d at h ⊢
  simp [airflowSubstChar, h]

theorem mem_renameForAirflow_allowed (name : String) :
    ∀ c ∈ (renameForAirflow name).data, specAllowedChar c = true := by
  intro c hc
  simp only [renameForAirflow] at hc
  rcases List.mem_map.mp (List.mem_of_mem_take hc) with ⟨a, _, ha⟩
  rw [← ha, ← isAirflowNameChar_eq_specAllowedChar]
  exact isAirflowNameChar_airflowSubstChar a

/-- C8: the derived external DAG identifier equals the input with every
character outside `[A-Za-z0-9_.-]` replaced by `_`, then truncated to at most
250 characters; it is deterministic, and its output contains only characters
of that class. -/
theorem renameForAirflow_spec (name : String) :
    renameForAirflow name = specSanitize name ∧
    (∀ c ∈ (renameForAirflow name).data, specAllowedChar c = true) ∧
    (renameForAirflow name).length ≤ 250 ∧
    (∀ other : String, other = name → renameForAirflow other = renameForAirflow name) := by
  refine ⟨?_, mem_renameForAirflow_allowed name, ?_, ?_⟩
  · have hf : airflowSubstChar = fun c => if specAllowedChar c then c else '_' := by
      funext c
      simp [airflowSubstChar, isAirflowNameChar_eq_specAllowedChar]
    simp only [renameForAirflow, specSanitize, AIRFLOW_MAX_DAG_NAME_LEN, hf]
  · simp only [renameForAirflow, String.length]
    exact le_trans (List.length_take_le _ _) (by simp [AIRFLOW_MAX_DAG_NAME_LEN])
  · intro other h; rw [h]

/-- Witness for C8 at the concrete input "dag name/with spaces". -/
theorem renameForAirflow_spec_witness :
    renameForAirflow "dag name/with spaces" = specSanitize "dag name/with spaces" ∧
    renameForAirflow "x" = renameForAirflow "x" :=
  ⟨(renameForAirflow_spec "dag name/with spaces").1,
    (renameForAirflow_spec "x").2.2.2 "x" rfl⟩

/-- C10: the sanitization is idempotent: applying `_rename_for_airflow`
twice yields the same result as applying it once. -/
theorem renameForAirflow_idempotent (name : String) :
    renameForAirflow (renameForAirflow name) = renameForAirflow name := by
  have hcomp : airflowSubstChar ∘ airflowSubstChar = airflowSubstChar := by
    funext c; exact airflowSubstChar_idem c
  show String.mk ((((name.data.map airflowSubstChar).take
      AIRFLOW_MAX_DAG_NAME_LEN).map airflowSubstChar).take AIRFLOW_MAX_DAG_NAME_LEN) = _
  rw [List.map_take, List.map_map, hcomp, List.take_take, Nat.min_self]
  rfl

/-! ## Airflow factory: task and edge materialization (`_make_airflow_dag`,
factory.py lines 99-140) -/

/-- A step input: carries the set of upstream step keys it depends on
(`step_input.dependency_keys`). -/
structure StepInput where
  dependencyKeys : List String
deriving DecidableEq

/-- An execution step of a compiled plan: its key, its owning solid's handle
(as the string `solid_handle.to_string()` used by the factory), and its
inputs. -/
structure ExecutionStep where
  key : String
  solidHandle : String
  stepInputs : List StepInput
deriving DecidableEq

/-- An execution plan, as the factory consumes it: the list of its steps. -/
structure ExecutionPlan where
  steps : List ExecutionStep
deriving DecidableEq

/-- `execution_plan.get_step_by_key(key)`: the step of the plan with that
key. -/
def ExecutionPlan.getStepByKey (plan : ExecutionPlan) (key : String) :
    Option ExecutionStep :=
  plan.steps.find? (fun s => s.key == key)

/-- The dependency keys the inner loops of `_make_airflow_dag` scan for one
coalesced group, in loop order: for each step of the group, for each of its
step inputs, that input's dependency keys. -/
def groupDependencyKeys (steps : List ExecutionStep) : List String :=
  steps.flatMap (fun s => s.stepInputs.flatMap (fun i => i.dependencyKeys))

/-- One iteration of the innermost loop of `_make_airflow_dag` for a single
dependency key: resolve the producing step via `get_step_by_key`, and when
its owning solid handle differs from the current group's handle, record the
`set_downstream` edge from the producer's task to the current task.  `none`
models the Python failure when the key does not resolve, or when the
producer's task is not yet in the `tasks` dict (a `KeyError`). -/
def edgeForKey (plan : ExecutionPlan) (tasks : List String) (handle : String)
    (key : String) : Option (List (String × String)) :=
  match plan.getStepByKey key with
  | none => none
  | some prev =>
    if prev.solidHandle = handle then some []
    else if prev.solidHandle ∈ tasks then some [(prev.solidHandle, handle)]
    else none

/-- The edges recorded while processing one coalesced group's dependency
keys, in order. -/
def edgesForGroup (plan : ExecutionPlan) (tasks : List String) (handle : String) :
    List String → Option (List (String × String))
  | [] => some []
  | k :: rest =>
    match edgeForKey plan tasks handle k with
    | none => none
    | some es =>
      match edgesForGroup plan tasks handle rest with
      | none => none
      | some es' => some (es ++ es')

/-- Embedding of the main loop of `_make_airflow_dag` (factory.py lines
99-140): iterate the coalesced plan's groups in order; for each group create
one task keyed by the group's solid handle, then wire `set_downstream`
edges for its dependency keys.  `tasks` is the ordered list of task ids
created so far and `edges` the `(upstream, downstream)` pairs wired so
far. -/
def buildTasksAndEdges (plan : ExecutionPlan) :
    List (String × List ExecutionStep) → List String → List (String × String) →
    Option (List String × List (String × String))
  | [], tasks, edges => some (tasks, edges)
  | (handle, steps) :: rest, tasks, edges =>
    match edgesForGroup plan (tasks ++ [handle]) handle (groupDependencyKeys steps) with
    | none => none
    | some es => buildTasksAndEdges plan rest (tasks ++ [handle]) (edges ++ es)

/-- The tasks created and edges wired by `_make_airflow_dag` for a plan and
its coalesced groups. -/
def makeAirflowTasks (plan : ExecutionPlan)
    (coalescedPlan : List (String × List ExecutionStep)) :
    Option (List String × List (String × String)) :=
  buildTasksAndEdges plan coalescedPlan [] []

theorem edgeForKey_mem (plan : ExecutionPlan) (tasks : List String)
    (handle k : String) (es : List (String × String))
    (h : edgeForKey plan tasks handle k = some es) (p : String × String) :
    p ∈ es ↔ ∃ st, plan.getStepByKey k = some st ∧
      st.solidHandle = p.1 ∧ p.1 ≠ handle ∧ p.2 = handle := by
  unfold edgeForKey at h
  cases h1 : plan.getStepByKey k with
  | none => rw [h1] at h; cases h
  | some prev =>
    rw [h1] at h
    dsimp only at h
    by_cases h2 : prev.solidHandle = handle
    · rw [if_pos h2] at h
      cases h
      constructor
      · intro hp; cases hp
      · rintro ⟨st, hst, hsh, hne, -⟩
        cases hst
        exact absurd (hsh ▸ h2) hne
    · rw [if_neg h2] at h
      by_cases h3 : prev.solidHandle ∈ tasks
      · rw [if_pos h3] at h
        cases h
        constructor
        · intro hp
          rcases List.mem_singleton.mp hp with rfl
          exact ⟨prev, rfl, rfl, h2, rfl⟩
        · rintro ⟨st, hst, hsh, hne, hp2⟩
          cases hst
          have : p = (prev.solidHandle, handle) := Prod.ext hsh.symm hp2
          simp [this]
      · rw [if_neg h3] at h; cases h

theorem edgesForGroup_mem (plan : ExecutionPlan) (tasks : List String)
    (handle : String) (keys : List String) (es : List (String × String))
    (h : edgesForGroup plan tasks handle keys = some es) (p : String × String) :
    p ∈ es ↔ ∃ k ∈ keys, ∃ st, plan.getStepByKey k = some st ∧
      st.solidHandle = p.1 ∧ p.1 ≠ handle ∧ p.2 = handle := by
  induction keys generalizing es with
  | nil =>
    unfold edgesForGroup at h
    cases h
    simp
  | cons k rest ih =>
    unfold edgesForGroup at h
    cases h1 : edgeForKey plan tasks handle k with
    | none => rw [h1] at h; cases h
    | some es1 =>
      rw [h1] at h
      cases h2 : edgesForGroup plan tasks handle rest with
      | none => rw [h2] at h; cases h
      | some es2 =>
        rw [h2] at h
        cases h
        constructor
        · intro hp
          rcases List.mem_append.mp hp with hp1 | hp2
          · rcases (edgeForKey_mem plan tasks handle k es1 h1 p).mp hp1 with
              ⟨st, hst, hsh, hne, hp2⟩
            exact ⟨k, List.mem_cons_self k rest, st, hst, hsh, hne, hp2⟩
          · rcases (ih es2 h2).mp hp2 with ⟨k', hk', rest'⟩
            exact ⟨k', List.mem_cons_of_mem k hk', rest'⟩
        · rintro ⟨k', hk', st, hst, hsh, hne, hp2⟩
          rcases List.mem_cons.mp hk' with rfl | hk'
          · exact List.mem_append.mpr (Or.inl
              ((edgeForKey_mem plan tasks handle k' es1 h1 p).mpr ⟨st, hst, hsh, hne, hp2⟩))
          · exact List.mem_append.mpr (Or.inr
              ((ih es2 h2).mpr ⟨k', hk', st, hst, hsh, hne, hp2⟩))

theorem buildTasksAndEdges_spec (plan : ExecutionPlan)
    (groups : List (String × List ExecutionStep)) (tasks : List String)
    (edges : List (String × String)) (T : List String) (E : List (String × String))
    (h : buildTasksAndEdges plan groups tasks edges = some (T, E)) :
    T = tasks ++ groups.map Prod.fst ∧
    ∀ p : String × String, p ∈ E ↔ p ∈ edges ∨
      ∃ steps, (p.2, steps) ∈ groups ∧ ∃ k ∈ groupDependencyKeys steps,
        ∃ st, plan.getStepByKey k = some st ∧ st.solidHandle = p.1 ∧ p.1 ≠ p.2 := by
  induction groups generalizing tasks edges T E with
  | nil =>
    unfold buildTasksAndEdges at h
    cases h
    refine ⟨by simp, fun p => ?_⟩
    simp
  | cons g rest ih =>
    obtain ⟨handle, steps⟩ := g
    unfold buildTasksAndEdges at h
    cases h1 : edgesForGroup plan (tasks ++ [handle]) handle (groupDependencyKeys steps) with
    | none => rw [h1] at h; cases h
    | some es =>
      rw [h1] at h
      obtain ⟨hT, hE⟩ := ih (tasks ++ [handle]) (edges ++ es) T E h
      constructor
      · rw [hT]; simp
      · intro p
        rw [hE p, List.mem_append]
        have hes := edgesForGroup_mem plan (tasks ++ [handle]) handle
          (groupDependencyKeys steps) es h1 p
        constructor
        · rintro ((hp | hp) | ⟨steps', hmem, hrest⟩)
          · exact Or.inl hp
          · rcases hes.mp hp with ⟨k, hk, st, hst, hsh, hne, hp2⟩
            exact Or.inr ⟨steps, by simp [hp2], k, hk, st, hst, hsh, hp2 ▸ hne⟩
          · exact Or.inr ⟨steps', List.mem_cons_of_mem _ hmem, hrest⟩
        · rintro (hp | ⟨steps', hmem, k, hk, st, hst, hsh, hne⟩)
          · exact Or.inl (Or.inl hp)
          · rcases List.mem_cons.mp hmem with heq | hmem'
            · rw [Prod.mk.injEq] at heq
              obtain ⟨hp2, rfl⟩ := heq
              exact Or.inl (Or.inr (hes.mpr ⟨k, hk, st, hst, hsh, hp2 ▸ hne, hp2⟩))
            · exact Or.inr ⟨steps', hmem', k, hk, st, hst, hsh, hne⟩

/-- C9: when `_make_airflow_dag` materializes scheduler tasks from a
coalesced plan, exactly one task is created per group, keyed by the group's
solid handle and in group order, and a `set_downstream` edge from the
producing step's task to the consuming step's task is wired if and only if
some step of the consuming group has a dependency key resolving (via
`get_step_by_key`) to a producing step whose owning solid handle differs
from the consuming group's handle; no edge is materialized for an
intra-group dependency. -/
theorem makeAirflowTasks_spec (plan : ExecutionPlan)
    (coalescedPlan : List (String × List ExecutionStep))
    (tasks : List String) (edges : List (String × String))
    (h : makeAirflowTasks plan coalescedPlan = some (tasks, edges)) :
    tasks = coalescedPlan.map Prod.fst ∧
    ∀ a b : String, (a, b) ∈ edges ↔
      ∃ steps, (b, steps) ∈ coalescedPlan ∧ ∃ k ∈ groupDependencyKeys steps,
        ∃ st, plan.getStepByKey k = some st ∧ st.solidHandle = a ∧ a ≠ b := by
  obtain ⟨hT, hE⟩ := buildTasksAndEdges_spec plan coalescedPlan [] [] tasks edges h
  refine ⟨by simpa using hT, fun a b => ?_⟩
  have := hE (a, b)
  simpa using this

/-- A plan with one step of solid `solidA` and two steps of solid `solidB`;
the first `solidB` step depends on the `solidA` step (cross-group) and the
second `solidB` step depends on the first (intra-group). -/
def examplePlan : ExecutionPlan :=
  ⟨[⟨"s1", "solidA", []⟩, ⟨"s2", "solidB", [⟨["s1"]⟩]⟩, ⟨"s3", "solidB", [⟨["s2"]⟩]⟩]⟩

/-- The coalesced groups of `examplePlan`, keyed by solid handle. -/
def exampleCoalesced : List (String × List ExecutionStep) :=
  [("solidA", [⟨"s1", "solidA", []⟩]),
   ("solidB", [⟨"s2", "solidB", [⟨["s1"]⟩]⟩, ⟨"s3", "solidB", [⟨["s2"]⟩]⟩])]

/-- Witness for C9: on `examplePlan` and `exampleCoalesced` the factory
creates one task per group and wires only the cross-group edge. -/
theorem makeAirflowTasks_spec_witness :
    ["solidA", "solidB"] = exampleCoalesced.map Prod.fst ∧
    ((("solidA", "solidB") ∈ [("solidA", "solidB")]) ↔
      ∃ steps, ("solidB", steps) ∈ exampleCoalesced ∧
        ∃ k ∈ groupDependencyKeys steps, ∃ st, examplePlan.getStepByKey k = some st ∧
          st.solidHandle = "solidA" ∧ "solidA" ≠ "solidB") := by
  have h := makeAirflowTasks_spec examplePlan exampleCoalesced
    ["solidA", "solidB"] [("solidA", "solidB")] (by rfl)
  exact ⟨h.1, h.2 "solidA" "solidB"⟩

/-! ## Modes, resources and pipeline construction
(exercised by dagster_tests/core_tests/test_mode_definitions.py; the
implementations `ModeDefinition`, `PipelineDefinition`,
`create_environment_type` are not part of the corpus) -/

/-- Modelled from the spec: `ModeDefinition` (spec §3) — a name, defaulting
to `"default"`, and a resource-name → ResourceDefinition mapping.  Only the
resource names bear on the claims, so the mapping is represented by its
list of names. -/
structure ModeDefinition where
  name : String := "default"
  resources : List String := []
deriving DecidableEq

/-- Modelled from the spec: `SolidDefinition` (spec §3) — only the solid's
name and its declared set of required resource names bear on the claims;
inputs, outputs and the transform function are omitted. -/
structure SolidDefinition where
  name : String
  requiredResources : List String := []
deriving DecidableEq

/-- A validated pipeline definition: its name, solids and modes. -/
structure PipelineDefinition where
  name : String
  solids : List SolidDefinition
  modes : List ModeDefinition
deriving DecidableEq

/-- Modelled from the spec and test_mode_definitions.py lines 95-98: the
message of the duplicate-mode-name definition error, naming the duplicated
mode name and the pipeline name. -/
def duplicateModeMessage (modeName pipelineName : String) : String :=
  "Two modes seen with the name \"" ++ modeName ++ "\" in \"" ++ pipelineName ++
    "\". Modes must have unique names."

/-- Modelled from the spec and test_mode_definitions.py lines 224-227: the
message of the missing-resource definition error, naming the resource, the
solid and the mode. -/
def missingResourceMessage (resourceName solidName modeName : String) : String :=
  "Resource \"" ++ resourceName ++ "\" is required by solid " ++ solidName ++
    ", but is not provided by mode \"" ++ modeName ++ "\""

/-- The first element of the list that also occurs later in it, scanning in
order. -/
def firstDuplicate : List String → Option String
  | [] => none
  | n :: rest => if n ∈ rest then some n else firstDuplicate rest

/-- The first required resource of the solid that the mode's resource
mapping lacks, with the solid and mode names. -/
def modeViolation (s : SolidDefinition) (m : ModeDefinition) :
    Option (String × String × String) :=
  (s.requiredResources.find? (fun r => !(m.resources.contains r))).map
    (fun r => (s.name, r, m.name))

/-- The first (solid, resource, mode) violation of the requirement that
every solid's required resource names be contained in every mode's
resource-name set, scanning solids, then modes, then required resources in
order. -/
def firstMissingResource (solids : List SolidDefinition)
    (modes : List ModeDefinition) : Option (String × String × String) :=
  solids.findSome? (fun s => modes.findSome? (fun m => modeViolation s m))

/-- Modelled from the spec: pipeline construction (spec §3, §4.1) — the
implementation `PipelineDefinition.__init__` is not in the corpus.
Construction validates that no two modes share a name (failing with the
`DuplicateModeNameError` message pinned by the tests) and that every
solid's required resources are provided by every mode (failing with the
`MissingResourceError` message pinned by the tests). -/
def mkPipelineDefinition (name : String) (solids : List SolidDefinition)
    (modes : List ModeDefinition) : Except String PipelineDefinition :=
  match firstDuplicate (modes.map ModeDefinition.name) with
  | some m => .error (duplicateModeMessage m name)
  | none =>
    match firstMissingResource solids modes with
    | some (sn, rn, mn) => .error (missingResourceMessage rn sn mn)
    | none => .ok ⟨name, solids, modes⟩

/-- Modelled from the spec: the invocation-time mode resolution errors of
spec §4.1 (`AmbiguousModeError`, `UnknownModeError`). -/
inductive ModeResolutionError where
  | ambiguousMode (pipelineName : String)
  | unknownMode (modeName pipelineName : String)
deriving DecidableEq

/-- Modelled from the spec: `resolve(pipeline, mode_name)` (spec §4.1) — if
`mode_name` is absent and the pipeline has exactly one mode, select it; if
absent with several modes, fail with `AmbiguousModeError`; if given but
naming no mode, fail with `UnknownModeError`. -/
def resolveMode (p : PipelineDefinition) (modeName : Option String) :
    Except ModeResolutionError ModeDefinition :=
  match modeName with
  | none =>
    match p.modes with
    | [m] => .ok m
    | _ => .error (.ambiguousMode p.name)
  | some n =>
    match p.modes.find? (fun m => m.name == n) with
    | some m => .ok m
    | none => .error (.unknownMode n p.name)

theorem firstDuplicate_eq_none_iff (l : List String) :
    firstDuplicate l = none ↔ l.Nodup := by
  induction l with
  | nil => simp [firstDuplicate]
  | cons n rest ih =>
    by_cases h : n ∈ rest
    · simp [firstDuplicate, h]
    · simp [firstDuplicate, h, ih]

theorem firstDuplicate_count (l : List String) (m : String)
    (h : firstDuplicate l = some m) : 2 ≤ l.count m := by
  induction l with
  | nil => cases h
  | cons n rest ih =>
    by_cases hm : n ∈ rest
    · rw [firstDuplicate, if_pos hm] at h
      cases h
      have h1 : 1 ≤ rest.count m := List.count_pos_iff.mpr hm
      rw [List.count_cons_self]
      omega
    · rw [firstDuplicate, if_neg hm] at h
      have := ih h
      have : rest.count m ≤ (n :: rest).count m := List.count_le_count_cons m n rest
      omega

/-- C5: a pipeline in which two modes share a name — explicitly or both by
the implicit default name — fails construction with the definition error
naming the duplicated mode name and the pipeline name. -/
theorem mkPipelineDefinition_duplicate_mode (name : String)
    (solids : List SolidDefinition) (modes : List ModeDefinition)
    (h : ¬ (modes.map ModeDefinition.name).Nodup) :
    ∃ m : String, 2 ≤ (modes.map ModeDefinition.name).count m ∧
      mkPipelineDefinition name solids modes =
        Except.error (duplicateModeMessage m name) := by
  cases hd : firstDuplicate (modes.map ModeDefinition.name) with
  | none => exact absurd ((firstDuplicate_eq_none_iff _).mp hd) h
  | some m =>
    refine ⟨m, firstDuplicate_count _ m hd, ?_⟩
    unfold mkPipelineDefinition
    rw [hd]

/-- Witness for C5: two modes both left to the default name `"default"`. -/
theorem mkPipelineDefinition_duplicate_mode_witness :
    ∃ m : String,
      2 ≤ (([⟨"default", []⟩, ⟨"default", []⟩] :
        List ModeDefinition).map ModeDefinition.name).count m ∧
      mkPipelineDefinition "double_default" [] [⟨"default", []⟩, ⟨"default", []⟩] =
        Except.error (duplicateModeMessage m "double_default") :=
  mkPipelineDefinition_duplicate_mode "double_default" []
    [⟨"default", []⟩, ⟨"default", []⟩] (by decide)

theorem modeViolation_eq_none_iff (s : SolidDefinition) (m : ModeDefinition) :
    modeViolation s m = none ↔ ∀ r ∈ s.requiredResources, r ∈ m.resources := by
  unfold modeViolation
  rw [Option.map_eq_none', List.find?_eq_none]
  simp

theorem modeViolation_eq_some (s : SolidDefinition) (m : ModeDefinition)
    (sn rn mn : String) (h : modeViolation s m = some (sn, rn, mn)) :
    sn = s.name ∧ mn = m.name ∧ rn ∈ s.requiredResources ∧ rn ∉ m.resources := by
  unfold modeViolation at h
  cases hf : s.requiredResources.find? (fun r => !(m.resources.contains r)) with
  | none => rw [hf] at h; cases h
  | some r =>
    rw [hf] at h
    have hmem := List.mem_of_find?_eq_some hf
    have hp := List.find?_some hf
    simp only [Option.map_some', Option.some.injEq, Prod.mk.injEq] at h
    obtain ⟨hsn, hrn, hmn⟩ := h
    subst hsn; subst hmn; subst hrn
    refine ⟨rfl, rfl, hmem, ?_⟩
    simpa using hp

theorem firstMissingResource_eq_none_iff (solids : List SolidDefinition)
    (modes : List ModeDefinition) :
    firstMissingResource solids modes = none ↔
      ∀ s ∈ solids, ∀ m ∈ modes, ∀ r ∈ s.requiredResources, r ∈ m.resources := by
  unfold firstMissingResource
  rw [List.findSome?_eq_none_iff]
  constructor
  · intro h s hs m hm
    have := (List.findSome?_eq_none_iff).mp (h s hs) m hm
    exact (modeViolation_eq_none_iff s m).mp this
  · intro h s hs
    rw [List.findSome?_eq_none_iff]
    intro m hm
    exact (modeViolation_eq_none_iff s m).mpr (h s hs m hm)

theorem firstMissingResource_eq_some (solids : List SolidDefinition)
    (modes : List ModeDefinition) (sn rn mn : String)
    (h : firstMissingResource solids modes = some (sn, rn, mn)) :
    ∃ s ∈ solids, ∃ m ∈ modes, s.name = sn ∧ m.name = mn ∧
      rn ∈ s.requiredResources ∧ rn ∉ m.resources := by
  unfold firstMissingResource at h
  rcases List.exists_of_findSome?_eq_some h with ⟨s, hs, hsome⟩
  rcases List.exists_of_findSome?_eq_some hsome with ⟨m, hm, hviol⟩
  obtain ⟨h1, h2, h3, h4⟩ := modeViolation_eq_some s m sn rn mn hviol
  exact ⟨s, hs, m, hm, h1.symm, h2.symm, h3, h4⟩

/-- C6: with mode names unique, a pipeline containing a solid requiring a
resource that some mode lacks fails construction with the definition error
naming that solid, resource and mode; and when every solid's required
resource names are contained in every mode's resource set, construction
succeeds. -/
theorem mkPipelineDefinition_resources (name : String)
    (solids : List SolidDefinition) (modes : List ModeDefinition)
    (hnodup : (modes.map ModeDefinition.name).Nodup) :
    ((∃ s ∈ solids, ∃ m ∈ modes, ∃ r ∈ s.requiredResources, r ∉ m.resources) →
      ∃ s ∈ solids, ∃ m ∈ modes, ∃ r ∈ s.requiredResources, r ∉ m.resources ∧
        mkPipelineDefinition name solids modes =
          Except.error (missingResourceMessage r s.name m.name)) ∧
    ((∀ s ∈ solids, ∀ m ∈ modes, ∀ r ∈ s.requiredResources, r ∈ m.resources) →
      mkPipelineDefinition name solids modes = Except.ok ⟨name, solids, modes⟩) := by
  have hdup : firstDuplicate (modes.map ModeDefinition.name) = none :=
    (firstDuplicate_eq_none_iff _).mpr hnodup
  constructor
  · rintro ⟨s, hs, m, hm, r, hr, hnot⟩
    cases hf : firstMissingResource solids modes with
    | none =>
      exact absurd ((firstMissingResource_eq_none_iff solids modes).mp hf s hs m hm r hr)
        hnot
    | some v =>
      obtain ⟨sn, rn, mn⟩ := v
      rcases firstMissingResource_eq_some solids modes sn rn mn hf with
        ⟨s', hs', m', hm', hsn, hmn, hrn, hnot'⟩
      refine ⟨s', hs', m', hm', rn, hrn, hnot', ?_⟩
      unfold mkPipelineDefinition
      rw [hdup, hf, hsn, hmn]
  · intro hall
    unfold mkPipelineDefinition
    rw [hdup, (firstMissingResource_eq_none_iff solids modes).mpr hall]

/-- Witness for C6, mirroring test_mode_with_resource_deps: a solid
requiring resource "a" under a default mode providing only "ab" fails with
the pinned message, and the same solid under a mode providing "a"
constructs successfully. -/
theorem mkPipelineDefinition_resources_witness :
    (∃ s ∈ [(⟨"requires_a", ["a"]⟩ : SolidDefinition)],
      ∃ m ∈ [(⟨"default", ["ab"]⟩ : ModeDefinition)],
      ∃ r ∈ s.requiredResources, r ∉ m.resources ∧
        mkPipelineDefinition "mode_with_bad_deps" [⟨"requires_a", ["a"]⟩]
            [⟨"default", ["ab"]⟩] =
          Except.error (missingResourceMessage r s.name m.name)) ∧
    mkPipelineDefinition "mode_with_good_deps" [⟨"requires_a", ["a"]⟩]
        [⟨"default", ["a"]⟩] =
      Except.ok ⟨"mode_with_good_deps", [⟨"requires_a", ["a"]⟩], [⟨"default", ["a"]⟩]⟩ := by
  constructor
  · exact (mkPipelineDefinition_resources "mode_with_bad_deps"
      [⟨"requires_a", ["a"]⟩] [⟨"default", ["ab"]⟩] (by decide)).1
      ⟨⟨"requires_a", ["a"]⟩, by decide, ⟨"default", ["ab"]⟩, by decide, "a",
        by decide, by decide⟩
  · exact (mkPipelineDefinition_resources "mode_with_good_deps"
      [⟨"requires_a", ["a"]⟩] [⟨"default", ["a"]⟩] (by decide)).2
      (by decide)

/-- C4: for a validly constructed pipeline, omitting the mode name selects
the unique mode when there is exactly one, fails with the ambiguous-mode
error when there are two or more, and giving a name that names no mode
fails with the unknown-mode error — all invocation-time failures of
`resolve`, with the pipeline definition itself validly constructed. -/
theorem resolveMode_spec (name : String) (solids : List SolidDefinition)
    (modes : List ModeDefinition) (p : PipelineDefinition)
    (_hp : mkPipelineDefinition name solids modes = Except.ok p) :
    (∀ m : ModeDefinition, p.modes = [m] → resolveMode p none = Except.ok m) ∧
    (2 ≤ p.modes.length →
      resolveMode p none = Except.error (.ambiguousMode p.name)) ∧
    (∀ n : String, (∀ m ∈ p.modes, m.name ≠ n) →
      resolveMode p (some n) = Except.error (.unknownMode n p.name)) := by
  refine ⟨?_, ?_, ?_⟩
  · intro m hm
    simp only [resolveMode, hm]
  · intro hlen
    simp only [resolveMode]
    cases hm : p.modes with
    | nil => rfl
    | cons m1 t =>
      cases ht : t with
      | nil => rw [hm, ht] at hlen; simp at hlen
      | cons m2 t2 => rfl
  · intro n hn
    have hfind : p.modes.find? (fun m => m.name == n) = none :=
      List.find?_eq_none.mpr (fun m hm => by simpa using hn m hm)
    simp only [resolveMode, hfind]

/-- Witness for C4: a validly constructed single-mode pipeline resolves its
unique mode when none is named, and an unknown mode name fails; a validly
constructed two-mode pipeline fails when no mode is named. -/
theorem resolveMode_spec_witness :
    resolveMode ⟨"single_mode", [], [⟨"the_mode", []⟩]⟩ none =
        Except.ok ⟨"the_mode", []⟩ ∧
    resolveMode ⟨"single_mode", [], [⟨"the_mode", []⟩]⟩ (some "wrong_mode") =
        Except.error (.unknownMode "wrong_mode" "single_mode") ∧
    resolveMode ⟨"multi_mode", [], [⟨"mode_one", []⟩, ⟨"mode_two", []⟩]⟩ none =
        Except.error (.ambiguousMode "multi_mode") := by
  have h1 := resolveMode_spec "single_mode" [] [⟨"the_mode", []⟩]
    ⟨"single_mode", [], [⟨"the_mode", []⟩]⟩ (by rfl)
  have h2 := resolveMode_spec "multi_mode" [] [⟨"mode_one", []⟩, ⟨"mode_two", []⟩]
    ⟨"multi_mode", [], [⟨"mode_one", []⟩, ⟨"mode_two", []⟩]⟩ (by rfl)
  exact ⟨h1.1 ⟨"the_mode", []⟩ rfl,
    h1.2.2 "wrong_mode" (by decide),
    h2.2.1 (by decide)⟩

/-! ## Environment-type identity (`create_environment_type`, exercised by
test_mode_definitions.py lines 45-49 and 163-191) -/

/-- Split a character list into the chunks separated by underscores. -/
def splitOnUnderscore : List Char → List (List Char)
  | [] => [[]]
  | c :: rest =>
    if c = '_' then [] :: splitOnUnderscore rest
    else match splitOnUnderscore rest with
      | [] => [[c]]
      | w :: ws => (c :: w) :: ws

/-- Uppercase the first character of a word. -/
def capitalizeChars : List Char → List Char
  | [] => []
  | c :: rest => c.toUpper :: rest

/-- Modelled from the spec: the `camelcase` normalization dagster applies to
the mode name when building environment type identities; pinned by
test_mode_definitions.py line 167, where mode `mult_mode` appears in the
identity as `MultMode`: split on underscores, capitalize each piece and
join. -/
def camelcase (s : String) : String :=
  String.mk ((splitOnUnderscore s.data).map capitalizeChars).flatten

/-- A configuration-schema identity: dagster environment types carry the
same dotted path as both `key` and `name`. -/
structure EnvironmentType where
  key : String
  name : String
deriving DecidableEq

/-- Modelled from the spec: the identity of `create_environment_type`'s
result (spec §4.2) — the implementation is not in the corpus.  A modeless
pipeline yields `<PipelineName>.Environment`; a named mode yields
`<PipelineName>.Mode.<CamelcasedModeName>.Environment`, the camelization of
the mode name being pinned by test_mode_definitions.py lines 163-191. -/
def createEnvironmentType (pipelineName : String) (modeName : Option String) :
    EnvironmentType :=
  match modeName with
  | none => ⟨pipelineName ++ ".Environment", pipelineName ++ ".Environment"⟩
  | some m =>
    ⟨pipelineName ++ ".Mode." ++ camelcase m ++ ".Environment",
     pipelineName ++ ".Mode." ++ camelcase m ++ ".Environment"⟩

/-- Modelled from the spec: the identity of the nested resources config
section of the environment type for a named mode (spec §4.2), namespaced
`<PipelineName>.Mode.<CamelcasedModeName>.Resources`. -/
def createResourcesType (pipelineName modeName : String) : EnvironmentType :=
  ⟨pipelineName ++ ".Mode." ++ camelcase modeName ++ ".Resources",
   pipelineName ++ ".Mode." ++ camelcase modeName ++ ".Resources"⟩

/-- Counterexample to C7: for the pipeline and mode of
test_correct_env_type_names_for_named, the environment type identity is
`MultiModeWithResources.Mode.MultMode.Environment` — the mode name is
camelized — and not the dotted path built from the mode name `mult_mode`
itself, as the claim states. -/
theorem createEnvironmentType_counterexample :
    (createEnvironmentType "MultiModeWithResources" (some "mult_mode")).key =
      "MultiModeWithResources.Mode.MultMode.Environment" ∧
    (createEnvironmentType "MultiModeWithResources" (some "mult_mode")).key ≠
      "MultiModeWithResources.Mode.mult_mode.Environment" := by
  constructor
  · decide
  · decide

/-- C7 as amended: the environment type's key and name are both
`<PipelineName>.Environment` for a modeless pipeline and
`<PipelineName>.Mode.<camelcase ModeName>.Environment` for a named mode,
with the nested resources section
`<PipelineName>.Mode.<camelcase ModeName>.Resources`; identical inputs
yield identical identity strings. -/
theorem createEnvironmentType_amended (pipelineName modeName : String) :
    ((createEnvironmentType pipelineName none).key = pipelineName ++ ".Environment" ∧
     (createEnvironmentType pipelineName none).name = pipelineName ++ ".Environment") ∧
    ((createEnvironmentType pipelineName (some modeName)).key =
        pipelineName ++ ".Mode." ++ camelcase modeName ++ ".Environment" ∧
     (createEnvironmentType pipelineName (some modeName)).name =
        pipelineName ++ ".Mode." ++ camelcase modeName ++ ".Environment") ∧
    ((createResourcesType pipelineName modeName).key =
        pipelineName ++ ".Mode." ++ camelcase modeName ++ ".Resources" ∧
     (createResourcesType pipelineName modeName).name =
        pipelineName ++ ".Mode." ++ camelcase modeName ++ ".Resources") ∧
    (∀ p2 m2 : String, p2 = pipelineName → m2 = modeName →
      createEnvironmentType p2 (some m2) =
        createEnvironmentType pipelineName (some modeName)) :=
  ⟨⟨rfl, rfl⟩, ⟨rfl, rfl⟩, ⟨rfl, rfl⟩,
    fun _ _ hp hm => by rw [hp, hm]⟩

/-- Witness for C7 as amended, at the identities checked by
test_modeless_env_type_name and test_correct_env_type_names_for_named. -/
theorem createEnvironmentType_amended_witness :
    (createEnvironmentType "Modeless" none).key = "Modeless" ++ ".Environment" ∧
    (createEnvironmentType "MultiModeWithResources" (some "mult_mode")).key =
      "MultiModeWithResources" ++ ".Mode." ++ camelcase "mult_mode" ++ ".Environment" ∧
    (createResourcesType "MultiModeWithResources" "mult_mode").key =
      "MultiModeWithResources" ++ ".Mode." ++ camelcase "mult_mode" ++ ".Resources" ∧
    createEnvironmentType "MultiModeWithResources" (some "mult_mode") =
      createEnvironmentType "MultiModeWithResources" (some "mult_mode") :=
  ⟨(createEnvironmentType_amended "Modeless" "mult_mode").1.1,
   (createEnvironmentType_amended "MultiModeWithResources" "mult_mode").2.1.1,
   (createEnvironmentType_amended "MultiModeWithResources" "mult_mode").2.2.1.1,
   (createEnvironmentType_amended "MultiModeWithResources" "mult_mode").2.2.2
     "MultiModeWithResources" "mult_mode" rfl rfl⟩

/-! ## Event log storage
(exercised by dagster_tests/core_tests/storage_tests/test_event_log.py;
the implementations `InMemoryEventLogStorage` and `SqliteEventLogStorage`
are not part of the corpus) -/

/-- Modelled from the spec: `DagsterEventRecord` (spec §3) — nullable error
info, human-readable message, severity level, optional structured dagster
event payload, run identifier, timestamp.  The float seconds-since-epoch
timestamp is represented as a natural number; no claim computes with it. -/
structure DagsterEventRecord where
  errorInfo : Option String
  message : String
  level : String
  dagsterEvent : Option String
  runId : String
  timestamp : Nat
deriving DecidableEq

/-- A watcher callback, identified by an opaque token standing for the
Python callback object's identity, which `end_watch` compares. -/
abbrev CallbackId := Nat

/-- Modelled from the spec: the state of `InMemoryEventLogStorage` (spec
§4.5) — the run → records mapping and the run → registered-watchers
mapping it exclusively owns, together with the log of watcher callback
invocations made so far, recorded so that delivery can be reasoned
about. -/
structure InMemoryEventLogStorage where
  logs : String → List DagsterEventRecord
  handlers : String → List CallbackId
  deliveries : List (CallbackId × DagsterEventRecord)

/-- A fresh storage: no records, no watchers, no deliveries. -/
def emptyStorage : InMemoryEventLogStorage :=
  ⟨fun _ => [], fun _ => [], []⟩

/-- Modelled from the spec: `get_logs_for_run(run_id)` — all current
records for the run in append order; an unknown run id yields the empty
sequence, not an error. -/
def getLogsForRun (s : InMemoryEventLogStorage) (runId : String) :
    List DagsterEventRecord :=
  s.logs runId

/-- Modelled from the spec: `store_event(record)` — append the record to
its run's log and notify every currently registered watcher of that run
with the new record. -/
def storeEvent (s : InMemoryEventLogStorage) (r : DagsterEventRecord) :
    InMemoryEventLogStorage where
  logs := fun rid => if rid = r.runId then s.logs rid ++ [r] else s.logs rid
  handlers := s.handlers
  deliveries := s.deliveries ++ (s.handlers r.runId).map (fun c => (c, r))

/-- Modelled from the spec: `watch(run_id, cursor, callback)` — register
the callback for the run.  The cursor is reserved and must not replay
already-stored records, so registration touches neither the logs nor the
deliveries. -/
def watch (s : InMemoryEventLogStorage) (runId : String) (_cursor : Option Nat)
    (c : CallbackId) : InMemoryEventLogStorage where
  logs := s.logs
  handlers := fun rid => if rid = runId then s.handlers rid ++ [c] else s.handlers rid
  deliveries := s.deliveries

/-- Modelled from the spec: `end_watch(run_id, callback)` — unregister the
callback for the run; removing a callback that is not registered, or for an
unknown run id, is a no-op. -/
def endWatch (s : InMemoryEventLogStorage) (runId : String) (c : CallbackId) :
    InMemoryEventLogStorage where
  logs := s.logs
  handlers := fun rid => if rid = runId then (s.handlers rid).erase c else s.handlers rid
  deliveries := s.deliveries

/-- Modelled from the spec: `delete_events(run_id)` — remove all records
for the run; watcher registrations are unaffected. -/
def deleteEvents (s : InMemoryEventLogStorage) (runId : String) :
    InMemoryEventLogStorage where
  logs := fun rid => if rid = runId then [] else s.logs rid
  handlers := s.handlers
  deliveries := s.deliveries

/-- Modelled from the spec: `wipe()` — remove all records for all runs. -/
def wipe (s : InMemoryEventLogStorage) : InMemoryEventLogStorage where
  logs := fun _ => []
  handlers := s.handlers
  deliveries := s.deliveries

/-- An operation of the event log storage interface. -/
inductive StorageOp where
  | store (r : DagsterEventRecord)
  | watchOp (runId : String) (cursor : Option Nat) (c : CallbackId)
  | endWatchOp (runId : String) (c : CallbackId)
  | deleteOp (runId : String)
  | wipeOp

/-- Apply one storage operation. -/
def applyOp (s : InMemoryEventLogStorage) : StorageOp → InMemoryEventLogStorage
  | .store r => storeEvent s r
  | .watchOp rid cur c => watch s rid cur c
  | .endWatchOp rid c => endWatch s rid c
  | .deleteOp rid => deleteEvents s rid
  | .wipeOp => wipe s

/-- Run a sequence of storage operations from a state. -/
def runOps (s : InMemoryEventLogStorage) (ops : List StorageOp) :
    InMemoryEventLogStorage :=
  ops.foldl applyOp s

theorem storeAll_logs (runId : String) (events : List DagsterEventRecord)
    (s : InMemoryEventLogStorage) (hall : ∀ e ∈ events, e.runId = runId) :
    getLogsForRun (runOps s (events.map .store)) runId =
      getLogsForRun s runId ++ events := by
  induction events generalizing s with
  | nil => simp [runOps, getLogsForRun]
  | cons e rest ih =>
    have he : e.runId = runId := hall e (List.mem_cons_self e rest)
    have hrest : ∀ x ∈ rest, x.runId = runId :=
      fun x hx => hall x (List.mem_cons_of_mem e hx)
    show getLogsForRun (runOps (storeEvent s e) (rest.map .store)) runId = _
    rw [ih (storeEvent s e) hrest]
    simp [getLogsForRun, storeEvent, he]

theorem storeAll_other_logs (events : List DagsterEventRecord)
    (s : InMemoryEventLogStorage) (other : String)
    (hother : ∀ e ∈ events, e.runId ≠ other) :
    getLogsForRun (runOps s (events.map .store)) other = getLogsForRun s other := by
  induction events generalizing s with
  | nil => simp [runOps, getLogsForRun]
  | cons e rest ih =>
    have he : e.runId ≠ other := hother e (List.mem_cons_self e rest)
    have hrest : ∀ x ∈ rest, x.runId ≠ other :=
      fun x hx => hother x (List.mem_cons_of_mem e hx)
    show getLogsForRun (runOps (storeEvent s e) (rest.map .store)) other = _
    rw [ih (storeEvent s e) hrest]
    have : ¬ other = e.runId := fun h => he h.symm
    simp [getLogsForRun, storeEvent, this]

/-- C3: storing N events for run X onto a state holding no records for X
yields exactly those N records in append order from `get_logs_for_run`;
`delete_events(X)` and `wipe()` then yield the empty sequence; a run id for
which nothing was ever stored yields the empty sequence (in particular on
the fresh storage), not an error. -/
theorem eventLog_roundtrip (runId : String) (events : List DagsterEventRecord)
    (s : InMemoryEventLogStorage) (hfresh : getLogsForRun s runId = [])
    (hall : ∀ e ∈ events, e.runId = runId) :
    getLogsForRun (runOps s (events.map .store)) runId = events ∧
    getLogsForRun (deleteEvents (runOps s (events.map .store)) runId) runId = [] ∧
    getLogsForRun (wipe (runOps s (events.map .store))) runId = [] ∧
    (∀ other : String, (∀ e ∈ events, e.runId ≠ other) →
      getLogsForRun (runOps s (events.map .store)) other = getLogsForRun s other) ∧
    getLogsForRun emptyStorage runId = [] := by
  refine ⟨?_, ?_, ?_, ?_, rfl⟩
  · rw [storeAll_logs runId events s hall, hfresh]
    rfl
  · simp [getLogsForRun, deleteEvents]
  · simp [getLogsForRun, wipe]
  · exact fun other h => storeAll_other_logs events s other h

/-- Witness for C3: two events stored for run "foo" on the fresh storage
round-trip in order; deletion and wipe empty the log; run "bar" stays
empty. -/
theorem eventLog_roundtrip_witness :
    getLogsForRun (runOps emptyStorage
        ([⟨none, "Message1", "debug", none, "foo", 0⟩,
          ⟨none, "Message2", "debug", none, "foo", 1⟩].map .store)) "foo" =
      [⟨none, "Message1", "debug", none, "foo", 0⟩,
       ⟨none, "Message2", "debug", none, "foo", 1⟩] ∧
    getLogsForRun (deleteEvents (runOps emptyStorage
        ([⟨none, "Message1", "debug", none, "foo", 0⟩,
          ⟨none, "Message2", "debug", none, "foo", 1⟩].map .store)) "foo") "foo" = [] ∧
    getLogsForRun (wipe (runOps emptyStorage
        ([⟨none, "Message1", "debug", none, "foo", 0⟩,
          ⟨none, "Message2", "debug", none, "foo", 1⟩].map .store))) "foo" = [] ∧
    getLogsForRun (runOps emptyStorage
        ([⟨none, "Message1", "debug", none, "foo", 0⟩,
          ⟨none, "Message2", "debug", none, "foo", 1⟩].map .store)) "bar" =
      getLogsForRun emptyStorage "bar" ∧
    getLogsForRun emptyStorage "foo" = [] := by
  have h := eventLog_roundtrip "foo"
    [⟨none, "Message1", "debug", none, "foo", 0⟩,
     ⟨none, "Message2", "debug", none, "foo", 1⟩]
    emptyStorage rfl (by intro e he; fin_cases he <;> rfl)
  exact ⟨h.1, h.2.1, h.2.2.1,
    h.2.2.2.1 "bar" (by intro e he; fin_cases he <;> decide), h.2.2.2.2⟩

/-- The records delivered to a callback so far, in delivery order. -/
def deliveredTo (c : CallbackId) (s : InMemoryEventLogStorage) :
    List DagsterEventRecord :=
  (s.deliveries.filter (fun p => p.1 == c)).map Prod.snd

/-- The records stored for a run by a sequence of operations, in order. -/
def storesFor (runId : String) (ops : List StorageOp) : List DagsterEventRecord :=
  ops.filterMap (fun op =>
    match op with
    | .store r => if r.runId = runId then some r else none
    | _ => none)

/-- Whether an operation registers or unregisters the given callback. -/
def mentionsCallback (c : CallbackId) : StorageOp → Bool
  | .watchOp _ _ c' => c' == c
  | .endWatchOp _ c' => c' == c
  | _ => false

theorem notify_filter (c : CallbackId) (l : List CallbackId)
    (r : DagsterEventRecord) :
    ((l.map (fun x => (x, r))).filter (fun p => p.1 == c)).map Prod.snd =
      List.replicate (l.count c) r := by
  induction l with
  | nil => rfl
  | cons x t ih =>
    by_cases hx : x = c
    · subst hx
      simp only [List.map_cons, List.filter_cons, beq_self_eq_true, if_pos,
        List.map_cons, ih, List.count_cons_self, List.replicate_succ]
    · have hbeq : (x == c) = false := beq_eq_false_iff_ne.mpr hx
      simp [List.filter_cons, hbeq, ih, List.count_cons]

/-- Running operations that never register or unregister callback `c`,
from a state where `c` is registered exactly once for `runId` and for no
other run: `c` is delivered exactly the records stored for `runId`, in
order, and its registration state is preserved. -/
theorem registered_deliveries_aux (c : CallbackId) (runId : String)
    (ops : List StorageOp) (s : InMemoryEventLogStorage)
    (hops : ∀ op ∈ ops, mentionsCallback c op = false)
    (hreg : (s.handlers runId).count c = 1)
    (hother : ∀ rid, rid ≠ runId → c ∉ s.handlers rid) :
    deliveredTo c (runOps s ops) = deliveredTo c s ++ storesFor runId ops ∧
    ((runOps s ops).handlers runId).count c = 1 ∧
    (∀ rid, rid ≠ runId → c ∉ (runOps s ops).handlers rid) := by
  induction ops generalizing s with
  | nil => exact ⟨by simp [runOps, storesFor], hreg, hother⟩
  | cons op rest ih =>
    have hop := hops op (List.mem_cons_self op rest)
    have hrest : ∀ x ∈ rest, mentionsCallback c x = false :=
      fun x hx => hops x (List.mem_cons_of_mem op hx)
    show deliveredTo c (runOps (applyOp s op) rest) = _ ∧ _ ∧ _
    cases op with
    | store r =>
      dsimp only [applyOp]
      have hreg' : ((storeEvent s r).handlers runId).count c = 1 := hreg
      have hother' : ∀ rid, rid ≠ runId → c ∉ (storeEvent s r).handlers rid := hother
      obtain ⟨h1, h2, h3⟩ := ih (storeEvent s r) hrest hreg' hother'
      refine ⟨?_, h2, h3⟩
      rw [h1]
      have hdel : deliveredTo c (storeEvent s r) =
          deliveredTo c s ++ List.replicate ((s.handlers r.runId).count c) r := by
        simp only [deliveredTo, storeEvent, List.filter_append, List.map_append,
          notify_filter]
      by_cases hr : r.runId = runId
      · rw [hdel, hr, hreg]
        simp [storesFor, hr, List.append_assoc]
      · have : c ∉ s.handlers r.runId := hother r.runId hr
        have hcount : (s.handlers r.runId).count c = 0 :=
          List.count_eq_zero.mpr this
        rw [hdel, hcount]
        simp [storesFor, hr]
    | watchOp rid cur c' =>
      dsimp only [applyOp]
      have hne : c' ≠ c := by simpa [mentionsCallback] using hop
      have hreg' : ((watch s rid cur c').handlers runId).count c = 1 := by
        simp only [watch]
        by_cases h : runId = rid
        · rw [if_pos h, List.count_append]
          have : List.count c [c'] = 0 := by
            simp [List.count_singleton, beq_eq_false_iff_ne.mpr hne]
          omega
        · rw [if_neg h]; exact hreg
      have hother' : ∀ r2, r2 ≠ runId → c ∉ (watch s rid cur c').handlers r2 := by
        intro r2 hr2
        simp only [watch]
        by_cases h : r2 = rid
        · rw [if_pos h]
          intro hmem
          rcases List.mem_append.mp hmem with hmem | hmem
          · exact hother r2 hr2 hmem
          · exact hne (List.mem_singleton.mp hmem).symm
        · rw [if_neg h]; exact hother r2 hr2
      obtain ⟨h1, h2, h3⟩ := ih (watch s rid cur c') hrest hreg' hother'
      refine ⟨?_, h2, h3⟩
      rw [h1]
      simp [deliveredTo, watch, storesFor]
    | endWatchOp rid c' =>
      dsimp only [applyOp]
      have hne : c' ≠ c := by simpa [mentionsCallback] using hop
      have hreg' : ((endWatch s rid c').handlers runId).count c = 1 := by
        simp only [endWatch]
        by_cases h : runId = rid
        · rw [if_pos h, List.count_erase_of_ne (fun h' => hne h'.symm)]
          exact hreg
        · rw [if_neg h]; exact hreg
      have hother' : ∀ r2, r2 ≠ runId → c ∉ (endWatch s rid c').handlers r2 := by
        intro r2 hr2
        simp only [endWatch]
        by_cases h : r2 = rid
        · rw [if_pos h]
          exact fun hmem => hother r2 hr2 (List.mem_of_mem_erase hmem)
        · rw [if_neg h]; exact hother r2 hr2
      obtain ⟨h1, h2, h3⟩ := ih (endWatch s rid c') hrest hreg' hother'
      refine ⟨?_, h2, h3⟩
      rw [h1]
      simp [deliveredTo, endWatch, storesFor]
    | deleteOp rid =>
      dsimp only [applyOp]
      obtain ⟨h1, h2, h3⟩ := ih (deleteEvents s rid) hrest hreg hother
      refine ⟨?_, h2, h3⟩
      rw [h1]
      simp [deliveredTo, deleteEvents, storesFor]
    | wipeOp =>
      dsimp only [applyOp]
      obtain ⟨h1, h2, h3⟩ := ih (wipe s) hrest hreg hother
      refine ⟨?_, h2, h3⟩
      rw [h1]
      simp [deliveredTo, wipe, storesFor]

/-- Running operations that never register callback `c`, from a state where
`c` is registered for no run: nothing more is delivered to `c`, and it
stays unregistered. -/
theorem unregistered_deliveries_aux (c : CallbackId) (ops : List StorageOp)
    (s : InMemoryEventLogStorage)
    (hops : ∀ op ∈ ops, mentionsCallback c op = false)
    (hreg : ∀ rid, c ∉ s.handlers rid) :
    deliveredTo c (runOps s ops) = deliveredTo c s ∧
    (∀ rid, c ∉ (runOps s ops).handlers rid) := by
  induction ops generalizing s with
  | nil => exact ⟨rfl, hreg⟩
  | cons op rest ih =>
    have hop := hops op (List.mem_cons_self op rest)
    have hrest : ∀ x ∈ rest, mentionsCallback c x = false :=
      fun x hx => hops x (List.mem_cons_of_mem op hx)
    show deliveredTo c (runOps (applyOp s op) rest) = _ ∧ _
    cases op with
    | store r =>
      dsimp only [applyOp]
      have hcount : (s.handlers r.runId).count c = 0 :=
        List.count_eq_zero.mpr (hreg r.runId)
      have hdel : deliveredTo c (storeEvent s r) = deliveredTo c s := by
        simp only [deliveredTo, storeEvent, List.filter_append, List.map_append,
          notify_filter, hcount]
        simp
      obtain ⟨h1, h2⟩ := ih (storeEvent s r) hrest hreg
      exact ⟨by rw [h1, hdel], h2⟩
    | watchOp rid cur c' =>
      dsimp only [applyOp]
      have hne : c' ≠ c := by simpa [mentionsCallback] using hop
      have hreg' : ∀ r2, c ∉ (watch s rid cur c').handlers r2 := by
        intro r2
        simp only [watch]
        by_cases h : r2 = rid
        · rw [if_pos h]
          intro hmem
          rcases List.mem_append.mp hmem with hmem | hmem
          · exact hreg r2 hmem
          · exact hne (List.mem_singleton.mp hmem).symm
        · rw [if_neg h]; exact hreg r2
      obtain ⟨h1, h2⟩ := ih (watch s rid cur c') hrest hreg'
      exact ⟨by rw [h1]; rfl, h2⟩
    | endWatchOp rid c' =>
      dsimp only [applyOp]
      have hreg' : ∀ r2, c ∉ (endWatch s rid c').handlers r2 := by
        intro r2
        simp only [endWatch]
        by_cases h : r2 = rid
        · rw [if_pos h]
          exact fun hmem => hreg r2 (List.mem_of_mem_erase hmem)
        · rw [if_neg h]; exact hreg r2
      obtain ⟨h1, h2⟩ := ih (endWatch s rid c') hrest hreg'
      exact ⟨by rw [h1]; rfl, h2⟩
    | deleteOp rid =>
      dsimp only [applyOp]
      obtain ⟨h1, h2⟩ := ih (deleteEvents s rid) hrest hreg
      exact ⟨by rw [h1]; rfl, h2⟩
    | wipeOp =>
      dsimp only [applyOp]
      obtain ⟨h1, h2⟩ := ih (wipe s) hrest hreg
      exact ⟨by rw [h1]; rfl, h2⟩

/-- `end_watch` with a callback that is not registered for the run — in
particular for an unknown run id — changes nothing. -/
theorem endWatch_noop (s : InMemoryEventLogStorage) (rid : String)
    (c' : CallbackId) (hmem : c' ∉ s.handlers rid) : endWatch s rid c' = s := by
  cases s with
  | mk lg hd dv =>
    simp only [endWatch, InMemoryEventLogStorage.mk.injEq, and_true, true_and]
    funext r2
    by_cases h : r2 = rid
    · rw [if_pos h]
      subst h
      exact List.erase_of_not_mem hmem
    · rw [if_neg h]

/-- C1: from any state in which callback `c` is not registered for any run
and has received nothing, registering `c` via `watch`, running operations
that never register or unregister `c`, unregistering it via `end_watch`,
then running further such operations delivers to `c` exactly the records
stored for the watched run between registration and unregistration, in
order — nothing stored before registration is replayed and nothing stored
after unregistration is delivered; and `end_watch` for a callback that is
not registered, or for an unknown run id, changes nothing. -/
theorem watch_semantics (c : CallbackId) (runId : String) (cursor : Option Nat)
    (s0 : InMemoryEventLogStorage) (mid post : List StorageOp)
    (hc0 : ∀ rid, c ∉ s0.handlers rid)
    (hd0 : deliveredTo c s0 = [])
    (hmid : ∀ op ∈ mid, mentionsCallback c op = false)
    (hpost : ∀ op ∈ post, mentionsCallback c op = false) :
    deliveredTo c (runOps s0 ([StorageOp.watchOp runId cursor c] ++ mid ++
      [StorageOp.endWatchOp runId c] ++ post)) = storesFor runId mid ∧
    (∀ (s : InMemoryEventLogStorage) (rid : String) (c' : CallbackId),
      c' ∉ s.handlers rid → endWatch s rid c' = s) := by
  have hsplit : ∀ (s : InMemoryEventLogStorage) (l1 l2 : List StorageOp),
      runOps s (l1 ++ l2) = runOps (runOps s l1) l2 := by
    intro s l1 l2
    simp [runOps, List.foldl_append]
  refine ⟨?_, fun s rid c' h => endWatch_noop s rid c' h⟩
  rw [hsplit, hsplit, hsplit]
  have e1 : runOps s0 [StorageOp.watchOp runId cursor c] = watch s0 runId cursor c := rfl
  rw [e1]
  have h1 : ((watch s0 runId cursor c).handlers runId).count c = 1 := by
    have hh : (watch s0 runId cursor c).handlers runId = s0.handlers runId ++ [c] := by
      simp [watch]
    rw [hh, List.count_append, List.count_eq_zero.mpr (hc0 runId)]
    simp
  have h1b : ∀ rid, rid ≠ runId → c ∉ (watch s0 runId cursor c).handlers rid := by
    intro rid hrid
    simp only [watch]
    rw [if_neg hrid]
    exact hc0 rid
  obtain ⟨ha, hb, hcnt⟩ :=
    registered_deliveries_aux c runId mid (watch s0 runId cursor c) hmid h1 h1b
  have e2 : runOps (runOps (watch s0 runId cursor c) mid) [StorageOp.endWatchOp runId c] =
      endWatch (runOps (watch s0 runId cursor c) mid) runId c := rfl
  rw [e2]
  have h3 : ∀ rid,
      c ∉ (endWatch (runOps (watch s0 runId cursor c) mid) runId c).handlers rid := by
    intro rid
    simp only [endWatch]
    by_cases h : rid = runId
    · rw [if_pos h, h]
      have hz : (((runOps (watch s0 runId cursor c) mid).handlers runId).erase c).count c = 0 := by
        rw [List.count_erase_self, hb]
      exact List.count_eq_zero.mp hz
    · rw [if_neg h]
      exact hcnt rid h
  obtain ⟨hu, -⟩ := unregistered_deliveries_aux c post
    (endWatch (runOps (watch s0 runId cursor c) mid) runId c) hpost h3
  rw [hu]
  have e3 : deliveredTo c (endWatch (runOps (watch s0 runId cursor c) mid) runId c) =
      deliveredTo c (runOps (watch s0 runId cursor c) mid) := rfl
  have e4 : deliveredTo c (watch s0 runId cursor c) = deliveredTo c s0 := rfl
  rw [e3, ha, e4, hd0]
  rfl

/-- Witness for C1, mirroring test_event_log_storage_watch: Message1 stored
before the watch is not replayed; Message2 and Message3 stored while
watching are delivered in order; Message4 stored after end_watch is not
delivered; and end_watch of an unregistered callback is a no-op. -/
theorem watch_semantics_witness :
    deliveredTo 0 (runOps (storeEvent emptyStorage
        ⟨none, "Message1", "debug", none, "foo", 0⟩)
      ([StorageOp.watchOp "foo" none 0] ++
        [StorageOp.store ⟨none, "Message2", "debug", none, "foo", 1⟩,
         StorageOp.store ⟨none, "Message3", "debug", none, "foo", 2⟩] ++
        [StorageOp.endWatchOp "foo" 0] ++
        [StorageOp.store ⟨none, "Message4", "debug", none, "foo", 3⟩])) =
      storesFor "foo"
        [StorageOp.store ⟨none, "Message2", "debug", none, "foo", 1⟩,
         StorageOp.store ⟨none, "Message3", "debug", none, "foo", 2⟩] ∧
    (∀ (s : InMemoryEventLogStorage) (rid : String) (c' : CallbackId),
      c' ∉ s.handlers rid → endWatch s rid c' = s) :=
  watch_semantics 0 "foo" none
    (storeEvent emptyStorage ⟨none, "Message1", "debug", none, "foo", 0⟩)
    [StorageOp.store ⟨none, "Message2", "debug", none, "foo", 1⟩,
     StorageOp.store ⟨none, "Message3", "debug", none, "foo", 2⟩]
    [StorageOp.store ⟨none, "Message4", "debug", none, "foo", 3⟩]
    (by intro rid; simp [storeEvent, emptyStorage])
    rfl
    (by intro op hop; fin_cases hop <;> rfl)
    (by intro op hop; fin_cases hop; rfl)

/-! ## Durable (SQL-backed) event log storage and corruption
(exercised by test_filesystem_event_log_storage_run_corrupted and
test_filesystem_event_log_storage_run_corrupted_bad_data) -/

/-- Modelled from the spec: a row of the per-run SQL event log table (spec
§6): run id, serialized event payload, nullable event type, nullable
timestamp.  The serialized payload is `some r` when it deserializes to a
valid event record, and `none` for a structurally readable but semantically
invalid payload — such as the strings `'{bar}'` and `'3'` that the
corruption test inserts. -/
structure SqlEventLogRow where
  runId : String
  event : Option DagsterEventRecord
  dagsterEventType : Option String
  timestamp : Option Nat
deriving DecidableEq

/-- Modelled from the spec: the backing store the durable variant reads for
one run — either a file holding bytes that are not a database (the test
writes `'some nonsense'`), or a readable table of rows. -/
inductive RunBacking where
  | unreadable (bytes : String)
  | table (rows : List SqlEventLogRow)
deriving DecidableEq

/-- Modelled from the spec: the errors `get_logs_for_run` of the durable
variant can raise — the storage-engine-specific error
(`sqlalchemy.exc.DatabaseError`) for an unreadable backing file, and the
typed `DagsterEventLogInvalidForRun` error for a semantically invalid
stored row. -/
inductive SqlStorageError where
  | databaseError
  | eventLogInvalidForRun (runId : String)
deriving DecidableEq

/-- Deserialize the rows' event payloads; `none` as soon as any row's
payload is invalid. -/
def rowRecords : List SqlEventLogRow → Option (List DagsterEventRecord)
  | [] => some []
  | row :: rest =>
    match row.event with
    | none => none
    | some r =>
      match rowRecords rest with
      | none => none
      | some rs => some (r :: rs)

/-- Modelled from the spec: `get_logs_for_run` of the durable variant (spec
§4.5, §6): an unreadable backing file fails with the storage-engine error;
a readable table with any semantically invalid row fails with
`DagsterEventLogInvalidForRun`; otherwise every row's record is returned. -/
def sqlGetLogsForRun (runId : String) (b : RunBacking) :
    Except SqlStorageError (List DagsterEventRecord) :=
  match b with
  | .unreadable _ => .error .databaseError
  | .table rows =>
    match rowRecords rows with
    | none => .error (.eventLogInvalidForRun runId)
    | some records => .ok records

theorem rowRecords_eq_none (rows : List SqlEventLogRow)
    (h : ∃ row ∈ rows, row.event = none) : rowRecords rows = none := by
  induction rows with
  | nil => simp at h
  | cons row rest ih =>
    rcases h with ⟨r0, hr0, hev⟩
    rcases List.mem_cons.mp hr0 with rfl | hmem
    · simp [rowRecords, hev]
    · unfold rowRecords
      cases hrow : row.event with
      | none => rfl
      | some r => rw [ih ⟨r0, hmem, hev⟩]

theorem rowRecords_eq_some (rows : List SqlEventLogRow)
    (records : List DagsterEventRecord) (h : rowRecords rows = some records) :
    records = rows.filterMap (fun row => row.event) ∧
    records.length = rows.length := by
  induction rows generalizing records with
  | nil =>
    unfold rowRecords at h
    cases h
    simp
  | cons row rest ih =>
    unfold rowRecords at h
    cases hrow : row.event with
    | none => rw [hrow] at h; cases h
    | some r =>
      rw [hrow] at h
      cases hrest : rowRecords rest with
      | none => rw [hrest] at h; cases h
      | some rs =>
        rw [hrest] at h
        cases h
        obtain ⟨h1, h2⟩ := ih rs hrest
        constructor
        · simp [List.filterMap_cons, hrow, h1]
        · simp [h2]

/-- C2: the durable variant's `get_logs_for_run` fails with the
storage-engine error on an unreadable backing file, fails with the typed
event-log-invalid-for-run error when some readable row's payload is
semantically invalid, and on success returns every row's record — never a
silent partial or malformed result. -/
theorem sqlGetLogsForRun_spec (runId : String) :
    (∀ bytes : String,
      sqlGetLogsForRun runId (.unreadable bytes) = .error .databaseError) ∧
    (∀ rows : List SqlEventLogRow, (∃ row ∈ rows, row.event = none) →
      sqlGetLogsForRun runId (.table rows) =
        .error (.eventLogInvalidForRun runId)) ∧
    (∀ (rows : List SqlEventLogRow) (records : List DagsterEventRecord),
      sqlGetLogsForRun runId (.table rows) = .ok records →
      records = rows.filterMap (fun row => row.event) ∧
      records.length = rows.length) := by
  refine ⟨fun bytes => rfl, ?_, ?_⟩
  · intro rows h
    unfold sqlGetLogsForRun
    dsimp only
    rw [rowRecords_eq_none rows h]
  · intro rows records h
    unfold sqlGetLogsForRun at h
    dsimp only at h
    cases hr : rowRecords rows with
    | none => rw [hr] at h; cases h
    | some rs =>
      rw [hr] at h
      cases h
      exact rowRecords_eq_some rows records hr

/-- Witness for C2, mirroring the corruption tests: nonsense bytes give the
storage-engine error; a table with the invalid `'{bar}'` payload row gives
the typed invalid-for-run error; a table with one valid row round-trips it
in full. -/
theorem sqlGetLogsForRun_spec_witness :
    sqlGetLogsForRun "foo" (.unreadable "some nonsense") =
      .error .databaseError ∧
    sqlGetLogsForRun "foo" (.table [⟨"foo", none, none, none⟩]) =
      .error (.eventLogInvalidForRun "foo") ∧
    ([⟨none, "Message2", "debug", none, "foo", 0⟩] =
      ([⟨"foo", some ⟨none, "Message2", "debug", none, "foo", 0⟩, none, none⟩] :
          List SqlEventLogRow).filterMap (fun row => row.event) ∧
      ([(⟨none, "Message2", "debug", none, "foo", 0⟩ : DagsterEventRecord)]).length =
        ([⟨"foo", some ⟨none, "Message2", "debug", none, "foo", 0⟩, none, none⟩] :
          List SqlEventLogRow).length) :=
  ⟨(sqlGetLogsForRun_spec "foo").1 "some nonsense",
   (sqlGetLogsForRun_spec "foo").2.1 [⟨"foo", none, none, none⟩]
     ⟨⟨"foo", none, none, none⟩, by simp, rfl⟩,
   (sqlGetLogsForRun_spec "foo").2.2
     [⟨"foo", some ⟨none, "Message2", "debug", none, "foo", 0⟩, none, none⟩]
     [⟨none, "Message2", "debug", none, "foo", 0⟩] rfl⟩
